import Mathlib

/-!
Verification of the bounded producer/consumer coordination core and the
Fibonacci solver of this repository.  Code present under the repository's
sources (the condition-variable bounded buffer of `condition_example`, the
`message_handler` dispatcher loop, `Solution.fib`) is embedded directly;
the synchronization primitives that the scripts consume from the standard
library (bounded blocking queue, priority queue, counting semaphore, event)
are modelled from the specification, as marked on each definition.
-/

/-! ## Solution.fib (src/Fibonacci_number.py) -/

/-- One iteration of the summation loop of `Solution.fib`:
`temp[index] = temp[index - 1] + temp[index - 2]`. -/
def fibStep (temp : List Nat) (index : Nat) : List Nat :=
  temp.set index (temp.getD (index - 1) 0 + temp.getD (index - 2) 0)

/-- Embedding of `Solution.fib` from src/Fibonacci_number.py: special cases
for `n = 0` and `n = 1`, then a DP array `temp = [0] * (n + 1)` updated by the
loop `for index in range(2, n + 1)`, returning `temp[n]`.  `List.range' 2
(n - 1)` is exactly Python's `range(2, n + 1)` for `n ≥ 2`. -/
def Solution.fib (n : Nat) : Nat :=
  if n = 0 then 0
  else if n = 1 then 1
  else ((List.range' 2 (n - 1)).foldl fibStep (List.replicate (n + 1) 0)).getD n 0

theorem getD_replicate_zero (m i : Nat) : (List.replicate m (0 : Nat)).getD i 0 = 0 := by
  induction m generalizing i with
  | zero => simp [List.getD]
  | succ m ih =>
    cases i with
    | zero => simp [List.replicate]
    | succ i => simp

theorem set_replicate_zero (m j : Nat) :
    (List.replicate m (0 : Nat)).set j 0 = List.replicate m 0 := by
  induction m generalizing j with
  | zero => simp
  | succ m ih =>
    cases j with
    | zero => simp [List.replicate]
    | succ j => simp [List.replicate, List.set, ih j]

theorem fibStep_replicate_zero (m i : Nat) :
    fibStep (List.replicate m 0) i = List.replicate m 0 := by
  simp [fibStep, getD_replicate_zero, set_replicate_zero]

theorem foldl_fibStep_replicate_zero (idxs : List Nat) (m : Nat) :
    idxs.foldl fibStep (List.replicate m 0) = List.replicate m 0 := by
  induction idxs with
  | nil => rfl
  | cons i idxs ih => simp [List.foldl, fibStep_replicate_zero, ih]

/-- Claim C10: `Solution.fib` returns 0 for `n = 0`, 1 for `n = 1`, and 0 for
every `n ≥ 2`: the DP array `temp` is created all zeros, `temp[1]` is never
set to 1 before the summation loop, so every computed entry stays 0. -/
theorem fib_returns_zero_above_one :
    Solution.fib 0 = 0 ∧ Solution.fib 1 = 1 ∧ ∀ n, 2 ≤ n → Solution.fib n = 0 := by
  refine ⟨rfl, rfl, fun n hn => ?_⟩
  have h0 : n ≠ 0 := by omega
  have h1 : n ≠ 1 := by omega
  simp only [Solution.fib, h0, h1, if_false]
  rw [foldl_fibStep_replicate_zero]
  exact getD_replicate_zero (n + 1) n

/-- Witness for C10 at the concrete input `n = 7`. -/
theorem fib_returns_zero_above_one_witness : Solution.fib 7 = 0 :=
  fib_returns_zero_above_one.2.2 7 (by decide)

/-! ## Condition-variable bounded buffer (src/thread_synchronization.py,
`condition_example`): a shared list `queue` with capacity `MAX_ITEMS`; the
producer waits while `len(queue) >= MAX_ITEMS` and then appends, the consumer
waits while `len(queue) == 0` and then pops the front (`queue.pop(0)`). -/

/-- An operation on the bounded buffer, labelled with the item moved. -/
inductive BufOp (α : Type) where
  | put : α → BufOp α
  | get : α → BufOp α
deriving DecidableEq

/-- The items put by a sequence of operations, in order. -/
def putsOf {α : Type} : List (BufOp α) → List α
  | [] => []
  | BufOp.put x :: ops => x :: putsOf ops
  | BufOp.get _ :: ops => putsOf ops

/-- The items delivered by get in a sequence of operations, in order. -/
def getsOf {α : Type} : List (BufOp α) → List α
  | [] => []
  | BufOp.put _ :: ops => getsOf ops
  | BufOp.get x :: ops => x :: getsOf ops

/-- One step of the bounded buffer of `condition_example`: a put appends only
once `len < C` holds (the producer waits while the buffer is full) and a get
removes the front item only when the buffer is nonempty (the consumer waits
while it is empty). -/
inductive BufStep (C : Nat) {α : Type} : List α → BufOp α → List α → Prop where
  | put (q : List α) (x : α) : q.length < C → BufStep C q (BufOp.put x) (q ++ [x])
  | get (x : α) (q : List α) : BufStep C (x :: q) (BufOp.get x) q

/-- A completed interleaving of buffer operations: every put and get in the
list ran to completion, each enabled when it executed. -/
inductive BufRun (C : Nat) {α : Type} : List α → List (BufOp α) → List α → Prop where
  | nil (q : List α) : BufRun C q [] q
  | cons {q q1 qf : List α} {op : BufOp α} {ops : List (BufOp α)} :
      BufStep C q op q1 → BufRun C q1 ops qf → BufRun C q (op :: ops) qf

theorem bufRun_balance {α : Type} {C : Nat} {q qf : List α} {ops : List (BufOp α)}
    (h : BufRun C q ops qf) : q ++ putsOf ops = getsOf ops ++ qf := by
  induction h with
  | nil q => simp [putsOf, getsOf]
  | cons step _ ih =>
    cases step with
    | put q x hlt => simpa [putsOf, getsOf] using ih
    | get x q => simpa [putsOf, getsOf] using ih

/-- Claim C1: in every completed interleaving of put and get calls on the
bounded buffer started empty, the put sequence equals the get sequence
followed by the leftover buffer (no item lost or duplicated), and when the
number of gets equals the number of puts the get order is exactly the put
order (FIFO). -/
theorem bounded_buffer_fifo_no_loss {α : Type} (C : Nat) (ops : List (BufOp α))
    (qf : List α) (hrun : BufRun C [] ops qf) :
    putsOf ops = getsOf ops ++ qf ∧
    ((getsOf ops).length = (putsOf ops).length → getsOf ops = putsOf ops) := by
  have hbal : putsOf ops = getsOf ops ++ qf := by
    simpa using bufRun_balance hrun
  refine ⟨hbal, fun hlen => ?_⟩
  have hlen2 : (putsOf ops).length = (getsOf ops).length + qf.length := by
    rw [hbal, List.length_append]
  have hqf : qf = [] := List.length_eq_zero.mp (by omega)
  simp [hbal, hqf]

theorem bufRun_example_c1 :
    BufRun 2 ([] : List Nat) [BufOp.put 1, BufOp.put 2, BufOp.get 1, BufOp.get 2] [] := by
  refine BufRun.cons (BufStep.put [] 1 (by decide)) ?_
  refine BufRun.cons (BufStep.put [1] 2 (by decide)) ?_
  refine BufRun.cons (BufStep.get 1 [2]) ?_
  exact BufRun.cons (BufStep.get 2 []) (BufRun.nil [])

/-- Witness for C1: a concrete completed run of two puts and two gets on a
buffer of capacity 2 delivers exactly the items put, in put order. -/
theorem bounded_buffer_fifo_no_loss_witness :
    getsOf [BufOp.put 1, BufOp.put 2, BufOp.get 1, BufOp.get 2] =
      putsOf [BufOp.put 1, BufOp.put 2, BufOp.get (1 : Nat), BufOp.get 2] :=
  (bounded_buffer_fifo_no_loss 2 _ [] bufRun_example_c1).2 (by decide)

theorem bufStep_length {α : Type} {C : Nat} {q q1 : List α} {op : BufOp α}
    (h : BufStep C q op q1) (hq : q.length ≤ C) : q1.length ≤ C := by
  cases h with
  | put q x hlt => simpa using hlt
  | get x q =>
    simp at hq
    omega

/-- Claim C6: the buffer length never exceeds the capacity: any run starting
from a state within capacity ends within capacity, so every state reachable
from the empty buffer satisfies `0 ≤ len ≤ C`. -/
theorem bounded_buffer_length_invariant {α : Type} (C : Nat) (q0 qf : List α)
    (ops : List (BufOp α)) (hrun : BufRun C q0 ops qf) :
    q0.length ≤ C → qf.length ≤ C := by
  induction hrun with
  | nil q => exact id
  | cons step _ ih => exact fun h0 => ih (bufStep_length step h0)

theorem bufRun_example_c6 :
    BufRun 1 ([] : List Nat) [BufOp.put 5, BufOp.get 5, BufOp.put 6] [6] := by
  refine BufRun.cons (BufStep.put [] 5 (by decide)) ?_
  refine BufRun.cons (BufStep.get 5 []) ?_
  exact BufRun.cons (BufStep.put [] 6 (by decide)) (BufRun.nil [6])

/-- Witness for C6: a concrete run on a capacity-1 buffer ends with length
at most 1. -/
theorem bounded_buffer_length_invariant_witness : ([6] : List Nat).length ≤ 1 :=
  bounded_buffer_length_invariant 1 [] [6] [BufOp.put 5, BufOp.get 5, BufOp.put 6]
    bufRun_example_c6 (by decide)

/-! ## Bounded blocking queue with completion tracking.  The scripts consume
Python's `queue.Queue`, which is not part of this repository's sources, so the
queue itself is modelled from the specification (section 4.3); the call
patterns of `queue_example` are the source of the scenarios. -/

/-- The error taxonomy of the specification's section 7. -/
inductive QErr where
  | Full
  | Empty
  | InvalidState
  | TimedOut
deriving DecidableEq

/-- Modelled from the spec: the Bounded Blocking Queue of section 4.3 (its
implementation, Python's `queue.Queue`, is absent from the repository): a
FIFO sequence with fixed capacity, plus counters of items ever put and of
`task_done` acknowledgments; `pending` is puts minus acknowledgments. -/
structure BQueue (α : Type) where
  capacity : Nat
  items : List α
  putCount : Nat
  doneCount : Nat
deriving DecidableEq

/-- Items inserted but not yet acknowledged as done. -/
def BQueue.pending {α : Type} (q : BQueue α) : Nat :=
  q.putCount - q.doneCount

/-- Modelled from the spec: `put(item, timeout?)` blocks while `len == C`;
once room is available it appends and increments pending; if the timeout
elapses first (the queue is still full) it fails with `Full`, leaving the
queue unchanged. -/
def BQueue.putT {α : Type} (q : BQueue α) (x : α) : Except QErr Unit × BQueue α :=
  if q.items.length < q.capacity then
    (Except.ok (), { q with items := q.items ++ [x], putCount := q.putCount + 1 })
  else
    (Except.error QErr.Full, q)

/-- Modelled from the spec: `get(timeout?)` blocks while `len == 0`; once an
item is available it removes and returns the front item without touching
pending; if the timeout elapses first (still empty) it fails with `Empty`,
leaving the queue unchanged. -/
def BQueue.getT {α : Type} (q : BQueue α) : Except QErr α × BQueue α :=
  match q.items with
  | [] => (Except.error QErr.Empty, q)
  | x :: rest => (Except.ok x, ({ q with items := rest } : BQueue α))

/-- Modelled from the spec: `task_done()` decrements pending, and fails with
`InvalidState` when called more times than items were ever put. -/
def BQueue.task_done {α : Type} (q : BQueue α) : Except QErr Unit × BQueue α :=
  if q.doneCount < q.putCount then
    (Except.ok (), { q with doneCount := q.doneCount + 1 })
  else
    (Except.error QErr.InvalidState, q)

/-- Modelled from the spec: `join()` blocks until `pending == 0`; this
predicate holds exactly when a `join` call returns. -/
def BQueue.joinReady {α : Type} (q : BQueue α) : Bool :=
  q.pending == 0

/-- Claim C4: `join` returns only when pending is zero, pending counting puts
minus `task_done` acknowledgments; a successful get leaves pending unchanged,
so a removed-but-unacknowledged item (the queue had at least as many pending
items as stored items, and at least one stored item) keeps `join` blocked. -/
theorem join_only_when_pending_zero {α : Type} (q : BQueue α) :
    (q.joinReady = true ↔ q.pending = 0) ∧
    (∀ x q2, q.getT = (Except.ok x, q2) →
      q2.pending = q.pending ∧
      (q.items.length ≤ q.pending → q2.joinReady = false)) := by
  obtain ⟨cap, items, pc, dc⟩ := q
  refine ⟨by simp [BQueue.joinReady], ?_⟩
  intro x q2 hget
  cases items with
  | nil => simp [BQueue.getT] at hget
  | cons y rest =>
    simp [BQueue.getT] at hget
    obtain ⟨hx, hq2⟩ := hget
    subst hq2
    refine ⟨rfl, fun hlen => ?_⟩
    simp [BQueue.pending] at hlen
    simp [BQueue.joinReady, BQueue.pending]
    omega

/-- A concrete queue holding one put, unacknowledged item. -/
def bqW : BQueue String := { capacity := 2, items := ["a"], putCount := 1, doneCount := 0 }

/-- The queue `bqW` after its item has been removed by get. -/
def bqW2 : BQueue String := { capacity := 2, items := [], putCount := 1, doneCount := 0 }

/-- Witness for C4: on a concrete queue holding one unacknowledged item, get
succeeds, pending stays 1 and `join` remains blocked. -/
theorem join_only_when_pending_zero_witness :
    (bqW.joinReady = true ↔ bqW.pending = 0) ∧
    bqW2.pending = bqW.pending ∧ bqW2.joinReady = false :=
  have h := join_only_when_pending_zero bqW
  have h2 := h.2 "a" bqW2 rfl
  ⟨h.1, h2.1, h2.2 (by decide)⟩

/-- Claim C7: `task_done` fails with `InvalidState` exactly when it is called
more times than items were ever put (this call would make acknowledgments
exceed puts); otherwise it succeeds and decrements pending by one. -/
theorem task_done_invalid_state_iff {α : Type} (q : BQueue α) :
    ((q.task_done).1 = Except.error QErr.InvalidState ↔ q.putCount ≤ q.doneCount) ∧
    (∀ q2, q.task_done = (Except.ok (), q2) →
      q2.pending + 1 = q.pending ∧ q2.doneCount = q.doneCount + 1) := by
  constructor
  · by_cases h : q.doneCount < q.putCount
    · rw [BQueue.task_done, if_pos h]
      constructor
      · intro hcontra
        exact absurd hcontra (by simp)
      · intro hle
        omega
    · rw [BQueue.task_done, if_neg h]
      constructor
      · intro _
        omega
      · intro _
        rfl
  · intro q2 hdone
    by_cases h : q.doneCount < q.putCount
    · rw [BQueue.task_done, if_pos h] at hdone
      have hq2 := congrArg Prod.snd hdone
      simp at hq2
      subst hq2
      refine ⟨?_, rfl⟩
      simp [BQueue.pending]
      omega
    · rw [BQueue.task_done, if_neg h] at hdone
      exact absurd (congrArg Prod.fst hdone) (by simp)

/-- Witness for C7: on a concrete queue with one outstanding put, `task_done`
succeeds and drops pending from 1 to 0. -/
theorem task_done_invalid_state_iff_witness :
    BQueue.pending { capacity := 3, items := ([] : List Nat), putCount := 1, doneCount := 1 } + 1 =
      BQueue.pending { capacity := 3, items := ([] : List Nat), putCount := 1, doneCount := 0 } :=
  ((task_done_invalid_state_iff
      { capacity := 3, items := ([] : List Nat), putCount := 1, doneCount := 0 }).2
    { capacity := 3, items := [], putCount := 1, doneCount := 1 } rfl).1

/-- Claim C8: a put whose timeout elapses while the queue is full fails with
`Full` and leaves the queue (items and pending alike) unchanged, and a get
whose timeout elapses while the queue is empty fails with `Empty` and leaves
the queue unchanged. -/
theorem timeout_failures_leave_queue_unchanged {α : Type} (q : BQueue α) (x : α) :
    (q.items.length = q.capacity → q.putT x = (Except.error QErr.Full, q)) ∧
    (q.items = [] → q.getT = (Except.error QErr.Empty, q)) := by
  constructor
  · intro hfull
    rw [BQueue.putT, if_neg (by omega)]
  · intro hempty
    rw [BQueue.getT, hempty]

/-- Witness for C8: a concrete full queue rejects a put with `Full` and a
concrete empty queue rejects a get with `Empty`, both unchanged. -/
theorem timeout_failures_leave_queue_unchanged_witness :
    BQueue.putT { capacity := 1, items := [0], putCount := 1, doneCount := 0 } 5 =
      (Except.error QErr.Full, { capacity := 1, items := [0], putCount := 1, doneCount := 0 }) ∧
    BQueue.getT { capacity := 1, items := ([] : List Nat), putCount := 1, doneCount := 1 } =
      (Except.error QErr.Empty, { capacity := 1, items := [], putCount := 1, doneCount := 1 }) :=
  ⟨(timeout_failures_leave_queue_unchanged
      { capacity := 1, items := [0], putCount := 1, doneCount := 0 } 5).1 rfl,
   (timeout_failures_leave_queue_unchanged
      { capacity := 1, items := ([] : List Nat), putCount := 1, doneCount := 1 } 0).2 rfl⟩

/-! ## Priority queue.  `priority_queue_example` consumes Python's
`queue.PriorityQueue`, which is not part of this repository's sources, so the
queue is modelled from the specification (PriorityItem of section 3 and the
Priority Blocking Queue of section 4.4). -/

/-- Modelled from the spec: a PriorityItem is a pair of a priority key and a
monotonically increasing insertion sequence number, carrying a payload;
ordering is lower priority first, ties resolved by lower sequence number. -/
structure PQueue (α : Type) where
  items : List (Nat × Nat × α)
  nextSeq : Nat
deriving DecidableEq

/-- A fresh, empty priority queue. -/
def PQueue.empty {α : Type} : PQueue α := ⟨[], 0⟩

/-- Modelled from the spec: `put(priority, item)` is unbounded, never blocks,
and appends the item with the next insertion sequence number. -/
def PQueue.put {α : Type} (q : PQueue α) (p : Nat) (x : α) : PQueue α :=
  ⟨q.items ++ [(p, q.nextSeq, x)], q.nextSeq + 1⟩

/-- Strict ordering on (priority, sequence-number) keys: lower priority wins,
ties broken by lower sequence number. -/
def keyLt (a b : Nat × Nat) : Bool :=
  decide (a.1 < b.1) || (a.1 == b.1 && decide (a.2 < b.2))

/-- The (priority, sequence-number) key of a stored item. -/
def pkey {α : Type} (e : Nat × Nat × α) : Nat × Nat := (e.1, e.2.1)

/-- Select and remove the stored item with the least (priority, sequence)
key; the earliest such item is returned when keys repeat. -/
def selectMin {α : Type} : List (Nat × Nat × α) →
    Option ((Nat × Nat × α) × List (Nat × Nat × α))
  | [] => none
  | e :: rest =>
    match selectMin rest with
    | none => some (e, [])
    | some (m, rest2) =>
      if keyLt (pkey m) (pkey e) then some (m, e :: rest2) else some (e, rest)

/-- Modelled from the spec: `get(timeout?)` blocks while empty; otherwise it
returns the stored item with the numerically smallest priority, ties broken
by the smallest sequence number (earliest inserted wins), and removes it. -/
def PQueue.get {α : Type} (q : PQueue α) : Option ((Nat × Nat × α) × PQueue α) :=
  match selectMin q.items with
  | none => none
  | some (m, rest) => some (m, ⟨rest, q.nextSeq⟩)

/-- Drain at most `fuel` items from the priority queue, listing the
priorities of the items in the order get delivers them. -/
def drainPriorities {α : Type} : Nat → PQueue α → List Nat
  | 0, _ => []
  | fuel + 1, q =>
    match q.get with
    | none => []
    | some (m, q2) => m.1 :: drainPriorities fuel q2

/-- Drain at most `fuel` items from the priority queue, listing the payloads
of the items in the order get delivers them. -/
def drainPayloads {α : Type} : Nat → PQueue α → List α
  | 0, _ => []
  | fuel + 1, q =>
    match q.get with
    | none => []
    | some (m, q2) => m.2.2 :: drainPayloads fuel q2

/-- The queue of `priority_queue_example` after the producer inserted the
five messages with priorities [3, 1, 2, 5, 4], in that order. -/
def pqExample : PQueue String :=
  (((((PQueue.empty.put 3 "mail").put 1 "crash").put 2 "backup").put 5 "logs").put 4 "report")

theorem keyLt_false_iff (a b : Nat × Nat) :
    keyLt a b = false ↔ b.1 < a.1 ∨ (a.1 = b.1 ∧ b.2 ≤ a.2) := by
  simp [keyLt]
  omega

theorem selectMin_eq_none {α : Type} (l : List (Nat × Nat × α)) :
    selectMin l = none ↔ l = [] := by
  cases l with
  | nil => simp [selectMin]
  | cons e rest =>
    rw [selectMin]
    cases hsel : selectMin rest with
    | none => simp
    | some p =>
      obtain ⟨m, r2⟩ := p
      by_cases hlt : keyLt (pkey m) (pkey e) = true <;> simp [hlt]

theorem selectMin_mem {α : Type} (l : List (Nat × Nat × α)) (m : Nat × Nat × α)
    (rest : List (Nat × Nat × α)) (h : selectMin l = some (m, rest)) : m ∈ l := by
  induction l generalizing m rest with
  | nil => simp [selectMin] at h
  | cons e l ih =>
    rw [selectMin] at h
    cases hsel : selectMin l with
    | none =>
      rw [hsel] at h
      simp at h
      obtain ⟨h1, h2⟩ := h
      subst h1
      simp
    | some p =>
      obtain ⟨m2, rest2⟩ := p
      rw [hsel] at h
      by_cases hlt : keyLt (pkey m2) (pkey e) = true
      · simp [hlt] at h
        obtain ⟨h1, h2⟩ := h
        subst h1
        exact List.mem_cons_of_mem e (ih _ _ hsel)
      · simp [hlt] at h
        obtain ⟨h1, h2⟩ := h
        subst h1
        simp

theorem selectMin_le {α : Type} (l : List (Nat × Nat × α)) (m : Nat × Nat × α)
    (rest : List (Nat × Nat × α)) (h : selectMin l = some (m, rest)) :
    ∀ e ∈ l, keyLt (pkey e) (pkey m) = false := by
  induction l generalizing m rest with
  | nil => simp [selectMin] at h
  | cons e l ih =>
    rw [selectMin] at h
    cases hsel : selectMin l with
    | none =>
      rw [hsel] at h
      simp at h
      obtain ⟨h1, h2⟩ := h
      subst h1
      have hl : l = [] := (selectMin_eq_none l).mp hsel
      subst hl
      intro y hy
      simp at hy
      subst hy
      simp [keyLt]
    | some p =>
      obtain ⟨m2, rest2⟩ := p
      rw [hsel] at h
      by_cases hlt : keyLt (pkey m2) (pkey e) = true
      · simp [hlt] at h
        obtain ⟨h1, h2⟩ := h
        subst h1
        intro y hy
        rcases List.mem_cons.mp hy with hy | hy
        · subst hy
          rw [keyLt_false_iff]
          simp [keyLt, pkey] at hlt ⊢
          omega
        · exact ih _ _ hsel y hy
      · simp [hlt] at h
        obtain ⟨h1, h2⟩ := h
        subst h1
        intro y hy
        rcases List.mem_cons.mp hy with hy | hy
        · subst hy
          simp [keyLt]
        · have hym2 := ih _ _ hsel y hy
          have hlt2 : keyLt (pkey m2) (pkey e) = false := by
            simpa using hlt
          rw [keyLt_false_iff] at hym2 hlt2 ⊢
          omega

/-- Claim C2: every successful get on the priority queue returns a stored
item whose priority is strictly below every other stored item's, or ties it
with a sequence number at most the other's (stable: earliest inserted wins);
in particular inserting priorities [3, 1, 2, 5, 4] in that order drains as
[1, 2, 3, 4, 5], and inserting (7, "x") then (7, "y") with equal priority
drains x before y. -/
theorem priority_queue_smallest_first_stable :
    (∀ (α : Type) (q : PQueue α) m q2, q.get = some (m, q2) →
      m ∈ q.items ∧ ∀ e ∈ q.items, m.1 < e.1 ∨ (m.1 = e.1 ∧ m.2.1 ≤ e.2.1)) ∧
    drainPriorities 5 pqExample = [1, 2, 3, 4, 5] ∧
    drainPayloads 2 ((PQueue.empty.put 7 "x").put 7 "y") = ["x", "y"] := by
  refine ⟨?_, by decide, by decide⟩
  intro α q m q2 hget
  rw [PQueue.get] at hget
  match hsel : selectMin q.items with
  | none =>
    rw [hsel] at hget
    simp at hget
  | some (m2, rest) =>
    rw [hsel] at hget
    simp at hget
    have hm : m = m2 := hget.1.symm
    subst hm
    refine ⟨selectMin_mem q.items m rest hsel, fun e he => ?_⟩
    have hle := selectMin_le q.items m rest hsel e he
    rw [keyLt_false_iff] at hle
    simp [pkey] at hle
    omega

/-- Witness for C2: getting from the concrete example queue returns the
priority-1 item, which is a stored item and below-or-tied with every
stored item. -/
theorem priority_queue_smallest_first_stable_witness :
    (1, 1, "crash") ∈ pqExample.items ∧
    ∀ e ∈ pqExample.items, 1 < e.1 ∨ (1 = e.1 ∧ 1 ≤ e.2.1) := by
  have h := priority_queue_smallest_first_stable.1 String pqExample (1, 1, "crash")
    ⟨[(3, 0, "mail"), (2, 2, "backup"), (5, 3, "logs"), (4, 4, "report")], 5⟩ (by decide)
  exact h

/-! ## Counting semaphore.  `semaphore_example` consumes Python's
`threading.Semaphore`, which is not part of this repository's sources, so the
permit pool is modelled from the specification (section 4.2): `acquire`
blocks while no permit is available, `release` restores a permit capped at
the construction-time bound and is issued by a current holder, as in the
acquire/release pairing of `resource_access`. -/

/-- Modelled from the spec: a permit pool with the configured permit count
`bound` fixed at construction, the current `available` count, and the number
of threads currently holding a permit. -/
structure Sem where
  bound : Nat
  available : Nat
  holders : Nat
deriving DecidableEq

/-- A semaphore as constructed with `N` permits: all permits available, no
holders. -/
def Sem.init (N : Nat) : Sem := ⟨N, N, 0⟩

/-- A semaphore operation label. -/
inductive SemOp where
  | acquire
  | release
deriving DecidableEq

/-- Modelled from the spec: `acquire` blocks while `available == 0` (it is
enabled only on a positive count, so the count is never driven negative) and
decrements `available`; `release`, issued by a current holder, increments
`available` capped at the bound and releases the permit. -/
inductive SemStep : Sem → SemOp → Sem → Prop where
  | acquire (s : Sem) : 0 < s.available →
      SemStep s SemOp.acquire ⟨s.bound, s.available - 1, s.holders + 1⟩
  | release (s : Sem) : 0 < s.holders →
      SemStep s SemOp.release ⟨s.bound, min (s.available + 1) s.bound, s.holders - 1⟩

/-- A completed sequence of semaphore operations. -/
inductive SemRun : Sem → List SemOp → Sem → Prop where
  | nil (s : Sem) : SemRun s [] s
  | cons {s s1 s2 : Sem} {op : SemOp} {ops : List SemOp} :
      SemStep s op s1 → SemRun s1 ops s2 → SemRun s (op :: ops) s2

theorem semStep_invariant {s s1 : Sem} {op : SemOp} (h : SemStep s op s1)
    (hs : s.available + s.holders = s.bound) :
    s1.available + s1.holders = s1.bound ∧ s1.bound = s.bound := by
  cases h with
  | acquire hav =>
    refine ⟨?_, rfl⟩
    simp
    omega
  | release hh =>
    refine ⟨?_, rfl⟩
    simp
    omega

theorem semRun_invariant {s s2 : Sem} {ops : List SemOp} (h : SemRun s ops s2) :
    s.available + s.holders = s.bound → s2.available + s2.holders = s2.bound ∧ s2.bound = s.bound := by
  induction h with
  | nil s => exact fun hs => ⟨hs, rfl⟩
  | cons step _ ih =>
    intro hs
    obtain ⟨h1, h2⟩ := semStep_invariant step hs
    obtain ⟨h3, h4⟩ := ih h1
    exact ⟨h3, h4.trans h2⟩

/-- Claim C3: starting from a semaphore constructed with `N` permits, after
every sequence of acquire and release operations the available count stays
in `[0, N]` (it is a natural number and never exceeds `N`), at most `N`
holders exist at any instant, and whenever all holders have released, the
available count equals `N` again. -/
theorem semaphore_available_bounded (N : Nat) (ops : List SemOp) (s : Sem)
    (h : SemRun (Sem.init N) ops s) :
    s.available ≤ N ∧ s.holders ≤ N ∧ s.available + s.holders = N ∧
      (s.holders = 0 → s.available = N) := by
  have hinv := semRun_invariant h (by simp [Sem.init])
  have hb : s.bound = N := hinv.2
  have hsum : s.available + s.holders = N := by
    rw [← hb]
    exact hinv.1
  exact ⟨by omega, by omega, hsum, by omega⟩

theorem semRun_example :
    SemRun (Sem.init 2) [SemOp.acquire, SemOp.acquire, SemOp.release, SemOp.release]
      ⟨2, 2, 0⟩ := by
  refine SemRun.cons (SemStep.acquire (Sem.init 2) (by decide)) ?_
  refine SemRun.cons (SemStep.acquire ⟨2, 1, 1⟩ (by decide)) ?_
  refine SemRun.cons (SemStep.release ⟨2, 0, 2⟩ (by decide)) ?_
  exact SemRun.cons (SemStep.release ⟨2, 1, 1⟩ (by decide)) (SemRun.nil ⟨2, 2, 0⟩)

/-- Witness for C3: a concrete run with `N = 2` — two acquires then two
releases — ends with both bounds respected and all permits restored. -/
theorem semaphore_available_bounded_witness :
    (2 : Nat) ≤ 2 ∧ (0 : Nat) ≤ 2 ∧ 2 + 0 = 2 ∧ ((0 : Nat) = 0 → (2 : Nat) = 2) :=
  semaphore_available_bounded 2
    [SemOp.acquire, SemOp.acquire, SemOp.release, SemOp.release] ⟨2, 2, 0⟩ semRun_example

/-! ## Event.  `event_example` and `event_communication_example` consume
Python's `threading.Event`, which is not part of this repository's sources,
so the reusable signal is modelled from the specification (section 4.5). -/

/-- Modelled from the spec: the Event flag — a boolean `signaled`, set and
cleared under the primitive's internal lock. -/
structure Event where
  signaled : Bool
deriving DecidableEq

/-- Modelled from the spec: `set()` marks the event signaled (and wakes all
current waiters). -/
def Event.set (_ : Event) : Event := ⟨true⟩

/-- Modelled from the spec: `clear()` resets the event to unsignaled. -/
def Event.clear (_ : Event) : Event := ⟨false⟩

/-- Modelled from the spec: a `wait()` call can return exactly when the
event is signaled; while unsignaled it blocks. -/
def Event.waitReady (e : Event) : Bool := e.signaled

/-- Modelled from the spec: `wait(timeout?)` returns `true` once signaled,
and fails with `TimedOut` if the flag is still unset when the timeout
elapses. -/
def Event.waitT (e : Event) : Except QErr Bool :=
  if e.signaled then Except.ok true else Except.error QErr.TimedOut

/-- A set or clear transition performed by some participant. -/
inductive EvOp where
  | set
  | clear
deriving DecidableEq

/-- The event state after a sequence of set/clear transitions. -/
def evApply : Event → List EvOp → Event
  | e, [] => e
  | _, EvOp.set :: ops => evApply ⟨true⟩ ops
  | _, EvOp.clear :: ops => evApply ⟨false⟩ ops

theorem evApply_no_clear (ops : List EvOp) (hops : EvOp.clear ∉ ops) :
    evApply ⟨true⟩ ops = ⟨true⟩ := by
  induction ops with
  | nil => rfl
  | cons op ops ih =>
    cases op with
    | set => exact ih (fun hmem => hops (List.mem_cons_of_mem _ hmem))
    | clear => exact absurd (List.mem_cons_self _ _) hops

/-- Claim C9: after `set()` every wait, issued at any later point while no
`clear()` has intervened, returns `true`; after `clear()` waits block until
the next `set()` re-enables them; and a wait with a timeout fails with
`TimedOut` whenever the flag is not set. -/
theorem event_set_clear_wait (e : Event) :
    (∀ ops : List EvOp, EvOp.clear ∉ ops → (evApply e.set ops).waitT = Except.ok true) ∧
    (e.clear).waitReady = false ∧
    (e.clear.set).waitT = Except.ok true ∧
    (e.signaled = false → e.waitT = Except.error QErr.TimedOut) := by
  refine ⟨fun ops hops => ?_, rfl, rfl, fun hsig => ?_⟩
  · have h : evApply e.set ops = ⟨true⟩ := evApply_no_clear ops hops
    rw [Event.set] at h
    rw [Event.set, h]
    rfl
  · rw [Event.waitT, hsig]
    rfl

/-- Witness for C9: on a concrete unsignaled event, wait times out; after a
set followed by another set (no clear), wait returns true. -/
theorem event_set_clear_wait_witness :
    (evApply (Event.set ⟨false⟩) [EvOp.set]).waitT = Except.ok true ∧
    Event.waitT ⟨false⟩ = Except.error QErr.TimedOut :=
  have h := event_set_clear_wait ⟨false⟩
  ⟨h.1 [EvOp.set] (by decide), h.2.2.2 rfl⟩

/-! ## Message dispatcher (src/thread_communication.py,
`message_passing_example`): the `message_handler` loop repeatedly takes the
next message from the bus, stops (after acknowledging) on a message whose
`msg_type` is "EXIT", and otherwise dispatches the message and acknowledges
it with `task_done`. -/

/-- The `Message` record of `message_passing_example`: a message type tag, a
content payload, a sender id and a timestamp. -/
structure Message where
  msg_type : String
  content : String
  sender : String
  timestamp : Nat
deriving DecidableEq

/-- Embedding of the `message_handler` loop run against the sequence of
messages the bus delivers, in delivery order: it returns the dispatched
messages in order together with the number of `task_done` acknowledgments,
or `none` when the loop never terminates (no sentinel is ever delivered and
the final `get` blocks forever). -/
def message_handler : List Message → Option (List Message × Nat)
  | [] => none
  | m :: rest =>
    if m.msg_type = "EXIT" then some ([], 1)
    else
      match message_handler rest with
      | none => none
      | some (d, a) => some (m :: d, a + 1)

/-- Claim C5: when the bus delivers the non-sentinel messages `ms` in order
followed by a sentinel (`msg_type = "EXIT"`), the dispatcher terminates,
dispatches exactly the messages of `ms`, each once and in delivery order,
and acknowledges every message including the sentinel — which it does not
dispatch. -/
theorem dispatcher_processes_each_once (ms : List Message) (ex : Message)
    (hms : ∀ m ∈ ms, m.msg_type ≠ "EXIT") (hex : ex.msg_type = "EXIT") :
    message_handler (ms ++ [ex]) = some (ms, ms.length + 1) := by
  induction ms with
  | nil =>
    rw [List.nil_append, message_handler, if_pos hex]
    rfl
  | cons m ms ih =>
    have hm : m.msg_type ≠ "EXIT" := hms m (List.mem_cons_self _ _)
    have hrest : message_handler (ms ++ [ex]) = some (ms, ms.length + 1) :=
      ih (fun y hy => hms y (List.mem_cons_of_mem _ hy))
    rw [List.cons_append, message_handler, if_neg hm, hrest]
    simp

/-- Witness for C5: a concrete bus delivery of two service messages followed
by the exit sentinel dispatches exactly the two messages and acknowledges
all three. -/
theorem dispatcher_processes_each_once_witness :
    message_handler
      [⟨"REQUEST", "r1", "ServiceA", 0⟩, ⟨"NOTIFICATION", "n1", "ServiceB", 1⟩,
       ⟨"EXIT", "bye", "Main", 2⟩] =
      some ([⟨"REQUEST", "r1", "ServiceA", 0⟩, ⟨"NOTIFICATION", "n1", "ServiceB", 1⟩], 3) :=
  dispatcher_processes_each_once
    [⟨"REQUEST", "r1", "ServiceA", 0⟩, ⟨"NOTIFICATION", "n1", "ServiceB", 1⟩]
    ⟨"EXIT", "bye", "Main", 2⟩ (by decide) rfl
